import Mathlib

/-!
Verification of the scheduler plugin framework (package
pkg/scheduler/framework/v1alpha1): Status plumbing, framework construction
from a plugin registry and a declarative plugin configuration, the
Score/NormalizeScore pipeline over a per-plugin score matrix, and the
asynchronous metrics recorder.

The framework implementation itself (NewFramework, RunNormalizeScorePlugins,
ApplyScoreWeights and the registry/plugin interfaces) is not part of the
corpus; only its test files are.  Those operations are therefore modelled
from the specification, with the test fixtures of framework_test.go
reproduced as concrete values.  The metrics recorder is embedded from
metrics_recorder.go (the current single-buffer revision).
-/

namespace KubeScheduler

/-- Status codes: Success plus the failure kinds of the error taxonomy that
the Score pipeline can produce at run time. -/
inductive Code where
  | Success
  | Error
  | MissingScoreEntry
deriving DecidableEq, Repr

/-- Payload of a non-nil Go Status: a code and a human-readable message. -/
structure StatusInfo where
  code : Code
  message : String
deriving DecidableEq, Repr

/-- Go passes Status around as a nullable pointer and nil means success; we
embed a Status as an Option whose none case is the nil Status. -/
abbrev Status := Option StatusInfo

/-- NewStatus builds a non-nil Status with the given code and message. -/
def NewStatus (c : Code) (msg : String) : Status := some ⟨c, msg⟩

/-- Status.IsSuccess: a nil Status, or one carrying the Success code, is a
success. -/
def statusIsSuccess : Status → Bool
  | none => true
  | some s => s.code == Code.Success

/-- Status.Code: the code of a Status; the nil Status reads as Success. -/
def statusCode : Status → Code
  | none => Code.Success
  | some s => s.code

/-- Code.String rendering used in metric label values. -/
def codeString : Code → String
  | Code.Success => "Success"
  | Code.Error => "Error"
  | Code.MissingScoreEntry => "MissingScoreEntry"

/-- NodeScoreList: ordered per-node integer scores produced by one plugin. -/
abbrev NodeScoreList := List Int

/-- PluginToNodeScoreMap: the score matrix, mapping plugin name to that
plugin's NodeScoreList; embedded as an association list in insertion
order. -/
abbrev PluginToNodeScoreMap := List (String × NodeScoreList)

/-- lookupScore finds the NodeScoreList stored under a plugin name. -/
def lookupScore : PluginToNodeScoreMap → String → Option NodeScoreList
  | [], _ => none
  | (k, v) :: rest, key => if k = key then some v else lookupScore rest key

/-- updateScore replaces the list stored under an existing key; writing
through the looked-up slice never adds a key, so an absent key leaves the
matrix unchanged. -/
def updateScore : PluginToNodeScoreMap → String → NodeScoreList → PluginToNodeScoreMap
  | [], _, _ => []
  | (k, v) :: rest, key, val =>
    if k = key then (k, val) :: rest else (k, v) :: updateScore rest key val

/-- Modelled from the spec: the plugin capability model of the missing
interface.go.  A plugin has a name and is polymorphic over the Score and
NormalizeScore capabilities; each capability is present or absent, matching
the per-interface type assertions of the Go implementation.  Score maps a
candidate node name to a score and a Status (the pod and context arguments
are opaque to the framework and dropped).  NormalizeScore mutates the given
NodeScoreList in place; it is embedded as returning the resulting list
together with its Status. -/
structure Plugin where
  name : String
  score : Option (String → Int × Status)
  normalizeScore : Option (NodeScoreList → Status × NodeScoreList)

/-- Raw per-plugin configuration arguments (runtime.Unknown), opaque here;
none is the empty default. -/
abbrev PluginArgs := Option String

/-- Modelled from the spec: a registry factory (missing registry.go) builds
a plugin instance from raw per-plugin configuration; the FrameworkHandle
argument is opaque and dropped.  A factory may fail, and its error
propagates verbatim as a construction failure. -/
abbrev Factory := PluginArgs → Except String Plugin

/-- Registry: mapping from plugin name to factory, with unique names. -/
abbrev Registry := List (String × Factory)

/-- lookupRegistry resolves a plugin name to its factory. -/
def lookupRegistry : Registry → String → Option Factory
  | [], _ => none
  | (k, v) :: rest, key => if k = key then some v else lookupRegistry rest key

/-- config.Plugin: one enablement entry, a plugin name and its integer
weight. -/
structure PluginEntry where
  name : String
  weight : Int
deriving DecidableEq, Repr

/-- config.PluginSet: the ordered list of enabled entries for one phase. -/
structure PluginSet where
  enabled : List PluginEntry
deriving DecidableEq, Repr

/-- config.Plugins restricted to the phases in scope; each phase's PluginSet
is nullable. -/
structure Plugins where
  score : Option PluginSet
  normalizeScore : Option PluginSet
deriving DecidableEq, Repr

/-- config.PluginConfig: raw arguments for one plugin, keyed by name. -/
structure PluginConfig where
  name : String
  args : String
deriving DecidableEq, Repr

/-- lookupArgs finds a plugin's raw configuration, defaulting to empty. -/
def lookupArgs : List PluginConfig → String → PluginArgs
  | [], _ => none
  | c :: rest, key => if c.name = key then some c.args else lookupArgs rest key

/-- enabledOf reads the enabled entries of a nullable PluginSet; a nil set
enables nothing. -/
def enabledOf : Option PluginSet → List PluginEntry
  | none => []
  | some ps => ps.enabled

/-- Construction-time error taxonomy of the specification. -/
inductive FrameworkError where
  | pluginNotFound (name : String)
  | pluginInstantiationFailure (name : String) (msg : String)
  | capabilityNotImplemented (name : String)
  | inconsistentPluginConfiguration (name : String)
deriving DecidableEq, Repr

/-- exceptIsOk reports whether an Except value is in its ok case. -/
def exceptIsOk : Except ε α → Bool
  | Except.ok _ => true
  | Except.error _ => false

/-- One entry of the validated NormalizeScore plan: the plugin's name, its
NormalizeScore capability extracted once at construction, and its weight. -/
structure NormalizePlanEntry where
  name : String
  normalize : NodeScoreList → Status × NodeScoreList
  weight : Int

/-- Framework: the validated per-phase execution plans, immutable after
construction.  The Score plan keeps the plugin instance with its weight; the
NormalizeScore plan keeps the extracted capability, so execution never
re-checks capabilities. -/
structure Framework where
  scorePlugins : List (Plugin × Int)
  normalizeScorePlugins : List NormalizePlanEntry

/-- Modelled from the spec: the Score-phase half of the missing NewFramework.
For each enabled entry in declared order: resolve the name in the registry
(missing name fails with pluginNotFound), run the factory on the entry's
arguments (a factory error fails construction), and require the Score
capability (its absence fails with capabilityNotImplemented).  Any failure
aborts the whole build. -/
def buildScorePlan (r : Registry) (args : List PluginConfig) :
    List PluginEntry → Except FrameworkError (List (Plugin × Int))
  | [] => Except.ok []
  | e :: rest =>
    match lookupRegistry r e.name with
    | none => Except.error (FrameworkError.pluginNotFound e.name)
    | some factory =>
      match factory (lookupArgs args e.name) with
      | Except.error msg => Except.error (FrameworkError.pluginInstantiationFailure e.name msg)
      | Except.ok p =>
        match p.score with
        | none => Except.error (FrameworkError.capabilityNotImplemented e.name)
        | some _ =>
          match buildScorePlan r args rest with
          | Except.error err => Except.error err
          | Except.ok plan => Except.ok ((p, e.weight) :: plan)

/-- Modelled from the spec: the NormalizeScore-phase half of the missing
NewFramework.  As for the Score phase, but the required capability is
NormalizeScore, and the cross-phase consistency rule additionally requires
the entry's name to appear among the Score-enabled names (violation fails
with inconsistentPluginConfiguration). -/
def buildNormalizePlan (r : Registry) (args : List PluginConfig) (scoreNames : List String) :
    List PluginEntry → Except FrameworkError (List NormalizePlanEntry)
  | [] => Except.ok []
  | e :: rest =>
    match lookupRegistry r e.name with
    | none => Except.error (FrameworkError.pluginNotFound e.name)
    | some factory =>
      match factory (lookupArgs args e.name) with
      | Except.error msg => Except.error (FrameworkError.pluginInstantiationFailure e.name msg)
      | Except.ok p =>
        match p.normalizeScore with
        | none => Except.error (FrameworkError.capabilityNotImplemented e.name)
        | some nf =>
          if scoreNames.contains e.name then
            match buildNormalizePlan r args scoreNames rest with
            | Except.error err => Except.error err
            | Except.ok plan => Except.ok (⟨e.name, nf, e.weight⟩ :: plan)
          else Except.error (FrameworkError.inconsistentPluginConfiguration e.name)

/-- Modelled from the spec: NewFramework (missing framework.go) validates
the declarative configuration against the registry and builds the per-phase
plans; a nil or empty PluginSet yields an empty plan, and construction is
atomic: any failure aborts the whole build and returns no Framework. -/
def NewFramework (r : Registry) (cfg : Plugins) (args : List PluginConfig) :
    Except FrameworkError Framework :=
  match buildScorePlan r args (enabledOf cfg.score) with
  | Except.error err => Except.error err
  | Except.ok sp =>
    match buildNormalizePlan r args ((enabledOf cfg.score).map PluginEntry.name)
        (enabledOf cfg.normalizeScore) with
    | Except.error err => Except.error err
    | Except.ok np => Except.ok ⟨sp, np⟩

/-- Modelled from the spec: the iteration of the missing
RunNormalizeScorePlugins over the NormalizeScore plan.  For each entry in
configured order: a score-matrix entry for the plugin's name is required
(absence fails with MissingScoreEntry, aborting immediately); the plugin's
NormalizeScore runs on that list and its in-place mutation is stored back;
a failing plugin Status is returned verbatim and aborts the iteration,
keeping the mutations already applied. -/
def runNormalizeGo : List NormalizePlanEntry → PluginToNodeScoreMap →
    Status × PluginToNodeScoreMap
  | [], m => (none, m)
  | e :: rest, m =>
    match lookupScore m e.name with
    | none => (NewStatus Code.MissingScoreEntry e.name, m)
    | some scores =>
      let res := e.normalize scores
      let m2 := updateScore m e.name res.2
      if statusIsSuccess res.1 then runNormalizeGo rest m2 else (res.1, m2)

/-- Modelled from the spec: RunNormalizeScorePlugins runs the NormalizeScore
plan over the score matrix (the context and pod arguments are only used for
logging and are dropped); an empty plan returns success with the matrix
untouched.  The mutated matrix is returned alongside the Status to embed the
in-place mutation. -/
def RunNormalizeScorePlugins (f : Framework) (scoreMap : PluginToNodeScoreMap) :
    Status × PluginToNodeScoreMap :=
  runNormalizeGo f.normalizeScorePlugins scoreMap

/-- Modelled from the spec: the iteration of the missing ApplyScoreWeights
over the Score plan.  For each (plugin, weight) in configured order: a
score-matrix entry for the plugin's name is required (absence fails with
MissingScoreEntry, aborting immediately); otherwise every element of the
plugin's NodeScoreList is multiplied by the weight, in place, with no
clamping. -/
def applyWeightsGo : List (Plugin × Int) → PluginToNodeScoreMap →
    Status × PluginToNodeScoreMap
  | [], m => (none, m)
  | pw :: rest, m =>
    match lookupScore m pw.1.name with
    | none => (NewStatus Code.MissingScoreEntry pw.1.name, m)
    | some scores =>
      applyWeightsGo rest (updateScore m pw.1.name (scores.map (fun x => x * pw.2)))

/-- Modelled from the spec: ApplyScoreWeights runs the weighting stage over
the Score plan (not the NormalizeScore plan), returning success once every
configured Score plugin has been weighted. -/
def ApplyScoreWeights (f : Framework) (scoreMap : PluginToNodeScoreMap) :
    Status × PluginToNodeScoreMap :=
  applyWeightsGo f.scorePlugins scoreMap

/-- Identity of the two histogram sinks used by the recorder. -/
inductive HistogramVec where
  | FrameworkExtensionPointDuration
  | PluginExecutionDuration
deriving DecidableEq, Repr

/-- frameworkMetric, from metrics_recorder.go: one pending observation, the
target histogram identity, its label values and the observed value. -/
structure frameworkMetric where
  metric : HistogramVec
  labelValues : List String
  value : Float

/-- metricsRecorder, from metrics_recorder.go: the single buffered channel
bufferCh is embedded as the FIFO list of its pending contents (head is the
next element to be received), stopCh and isStoppedCh as booleans that are
true once the corresponding signal is delivered, and the histogram calls
WithLabelValues(...).Observe(value) already performed by the drain loop as
the observed log. -/
structure metricsRecorder where
  bufferCh : List frameworkMetric
  bufferSize : Nat
  stopCh : Bool
  isStoppedCh : Bool
  observed : List frameworkMetric

/-- NewMetricsRecorder creates a recorder with an empty buffer of the given
capacity and both signals unset. -/
def NewMetricsRecorder (bufferSize : Nat) : metricsRecorder :=
  { bufferCh := [], bufferSize := bufferSize, stopCh := false
  , isStoppedCh := false, observed := [] }

/-- bufferEnqueue embeds the non-blocking select over bufferCh shared by the
two observe calls: the send succeeds exactly when the buffered channel has
free capacity, and the default branch silently drops the metric otherwise. -/
def bufferEnqueue (m : frameworkMetric) (r : metricsRecorder) : metricsRecorder :=
  if r.bufferCh.length < r.bufferSize then { r with bufferCh := r.bufferCh ++ [m] } else r

/-- observeExtensionPointDurationAsync, from metrics_recorder.go: build the
extension-point duration metric with labels (extension point, status code)
and try a non-blocking enqueue.  Nothing is returned to the caller. -/
def observeExtensionPointDurationAsync (extensionPoint : String) (status : Status)
    (value : Float) (r : metricsRecorder) : metricsRecorder :=
  bufferEnqueue
    { metric := HistogramVec.FrameworkExtensionPointDuration
    , labelValues := [extensionPoint, codeString (statusCode status)]
    , value := value } r

/-- observePluginDurationAsync, from metrics_recorder.go: build the plugin
duration metric with labels (plugin name, extension point, status code) and
try a non-blocking enqueue.  Nothing is returned to the caller. -/
def observePluginDurationAsync (extensionPoint pluginName : String) (status : Status)
    (value : Float) (r : metricsRecorder) : metricsRecorder :=
  bufferEnqueue
    { metric := HistogramVec.PluginExecutionDuration
    , labelValues := [pluginName, extensionPoint, codeString (statusCode status)]
    , value := value } r

/-- recordMetricsAux embeds the drain loop of recordMetrics: up to the given
number of iterations, receive one pending metric from bufferCh and apply it
to its histogram (append it to the observed log), returning as soon as the
buffer is empty. -/
def recordMetricsAux : Nat → metricsRecorder → metricsRecorder
  | 0, r => r
  | Nat.succ n, r =>
    match r.bufferCh with
    | [] => r
    | m :: rest =>
      recordMetricsAux n { r with bufferCh := rest, observed := r.observed ++ [m] }

/-- recordMetrics, from metrics_recorder.go: one drain cycle reads at most
bufferSize metrics from bufferCh, never blocking on an empty buffer. -/
def recordMetrics (r : metricsRecorder) : metricsRecorder :=
  recordMetricsAux r.bufferSize r

/-- runStep, from the run loop of metrics_recorder.go: each iteration first
polls stopCh; once the stop signal is delivered it closes isStoppedCh and
returns, otherwise it performs one drain cycle (and sleeps until the next
iteration). -/
def runStep (r : metricsRecorder) : metricsRecorder :=
  if r.stopCh then { r with isStoppedCh := true } else recordMetrics r

/-- runLoop iterates runStep for at most the given number of ticks; once the
loop has exited (isStoppedCh closed) no further iteration runs. -/
def runLoop : Nat → metricsRecorder → metricsRecorder
  | 0, r => r
  | Nat.succ n, r => if r.isStoppedCh then r else runLoop n (runStep r)

/-- Name constant of the first test plugin (framework_test.go). -/
def scorePlugin1 : String := "score-plugin-1"

/-- Name constant of the second test plugin (framework_test.go). -/
def scorePlugin2 : String := "score-plugin-2"

/-- Name constant of the third test plugin (framework_test.go). -/
def scorePlugin3 : String := "score-plugin-3"

/-- TestScorePlugin1, from the test fixtures: Score returns a dummy value;
NormalizeScore decreases each node score by 1, or returns an error Status
without touching the scores when constructed with fail set. -/
def TestScorePlugin1 (fail : Bool) : Plugin :=
  { name := scorePlugin1
  , score := some (fun _ => (0, none))
  , normalizeScore := some (fun scores =>
      if fail then (NewStatus Code.Error "injecting failure.", scores)
      else (none, scores.map (fun x => x - 1))) }

/-- NewNormalizeScorePlugin1: factory for TestScorePlugin1. -/
def NewNormalizeScorePlugin1 : Factory := fun _ => Except.ok (TestScorePlugin1 false)

/-- NewNormalizeScorePlugin1InjectFailure: factory for the failing variant
of TestScorePlugin1. -/
def NewNormalizeScorePlugin1InjectFailure : Factory :=
  fun _ => Except.ok (TestScorePlugin1 true)

/-- TestScorePlugin2, from the test fixtures: Score returns a dummy value;
NormalizeScore forces each node score to 5. -/
def TestScorePlugin2 : Plugin :=
  { name := scorePlugin2
  , score := some (fun _ => (0, none))
  , normalizeScore := some (fun scores => (none, scores.map (fun _ => 5))) }

/-- NewNormalizeScorePlugin2: factory for TestScorePlugin2. -/
def NewNormalizeScorePlugin2 : Factory := fun _ => Except.ok TestScorePlugin2

/-- TestScorePlugin3, from part_000 of the test fixtures: only implements
Score, not NormalizeScore. -/
def TestScorePlugin3 : Plugin :=
  { name := scorePlugin3
  , score := some (fun _ => (0, none))
  , normalizeScore := none }

/-- NewNormalizeScorePlugin3: factory for TestScorePlugin3. -/
def NewNormalizeScorePlugin3 : Factory := fun _ => Except.ok TestScorePlugin3

/-- registry, from the test fixtures: the three test plugins by name. -/
def registry : Registry :=
  [ (scorePlugin1, NewNormalizeScorePlugin1)
  , (scorePlugin2, NewNormalizeScorePlugin2)
  , (scorePlugin3, NewNormalizeScorePlugin3) ]

/-- plugin1, from the test fixtures: plugin 1 enabled under Score and
NormalizeScore with weight 2. -/
def plugin1 : Plugins :=
  { score := some ⟨[⟨scorePlugin1, 2⟩]⟩
  , normalizeScore := some ⟨[⟨scorePlugin1, 2⟩]⟩ }

/-- plugin1And2, from the test fixtures: plugins 1 and 2 enabled under both
phases with weights 2 and 3. -/
def plugin1And2 : Plugins :=
  { score := some ⟨[⟨scorePlugin1, 2⟩, ⟨scorePlugin2, 3⟩]⟩
  , normalizeScore := some ⟨[⟨scorePlugin1, 2⟩, ⟨scorePlugin2, 3⟩]⟩ }

/-- Per-entry construction-failure condition for a Score-phase entry, after
the specification's full construction algorithm: the name does not resolve,
the factory errors, or the constructed plugin lacks the Score capability. -/
def scoreEntryFails (r : Registry) (args : List PluginConfig) (e : PluginEntry) : Bool :=
  match lookupRegistry r e.name with
  | none => true
  | some factory =>
    match factory (lookupArgs args e.name) with
    | Except.error _ => true
    | Except.ok p => p.score.isNone

/-- Per-entry construction-failure condition for a NormalizeScore-phase
entry, after the specification's full construction algorithm: the name does
not resolve, the factory errors, the constructed plugin lacks the
NormalizeScore capability, or the name is not among the Score-enabled
names. -/
def normalizeEntryFails (r : Registry) (args : List PluginConfig)
    (scoreNames : List String) (e : PluginEntry) : Bool :=
  match lookupRegistry r e.name with
  | none => true
  | some factory =>
    match factory (lookupArgs args e.name) with
    | Except.error _ => true
    | Except.ok p => p.normalizeScore.isNone || !(scoreNames.contains e.name)

/-- Per-entry Score-phase failure condition exactly as the claim words it:
the name is absent from the registry, or the constructed plugin lacks the
Score capability.  A factory error constructs no plugin, so it makes this
condition false. -/
def scoreEntryFailsStated (r : Registry) (args : List PluginConfig) (e : PluginEntry) : Bool :=
  match lookupRegistry r e.name with
  | none => true
  | some factory =>
    match factory (lookupArgs args e.name) with
    | Except.error _ => false
    | Except.ok p => p.score.isNone

/-- Per-entry NormalizeScore-phase failure condition exactly as the claim
words it: the name is absent from the registry, the constructed plugin lacks
the NormalizeScore capability, or the name is not Score-enabled.  A factory
error constructs no plugin, so the capability clause is false for it. -/
def normalizeEntryFailsStated (r : Registry) (args : List PluginConfig)
    (scoreNames : List String) (e : PluginEntry) : Bool :=
  match lookupRegistry r e.name with
  | none => true
  | some factory =>
    match factory (lookupArgs args e.name) with
    | Except.error _ => !(scoreNames.contains e.name)
    | Except.ok p => p.normalizeScore.isNone || !(scoreNames.contains e.name)

/-- A registry whose only factory always errors. -/
def failingFactoryRegistry : Registry :=
  [("always-fails", fun _ => Except.error "factory failure")]

/-- A configuration enabling only the failing-factory plugin under Score. -/
def failingFactoryConfig : Plugins :=
  { score := some ⟨[⟨"always-fails", 1⟩]⟩, normalizeScore := none }

/-- Normalize-plan entry of TestScorePlugin1 (decrease each score by one),
weight 2, as NewFramework extracts it. -/
def entry1 : NormalizePlanEntry :=
  ⟨scorePlugin1, fun scores => (none, scores.map (fun x => x - 1)), 2⟩

/-- Normalize-plan entry of the failing TestScorePlugin1 variant, weight 2. -/
def entry1Fail : NormalizePlanEntry :=
  ⟨scorePlugin1, fun scores => (NewStatus Code.Error "injecting failure.", scores), 2⟩

/-- Normalize-plan entry of TestScorePlugin2 (force each score to five),
weight 3, as NewFramework extracts it. -/
def entry2 : NormalizePlanEntry :=
  ⟨scorePlugin2, fun scores => (none, scores.map (fun _ => 5)), 3⟩

/-- Framework with plugins 1 and 2 in both plans, as built from
plugin1And2. -/
def fw12 : Framework :=
  ⟨[(TestScorePlugin1 false, 2), (TestScorePlugin2, 3)], [entry1, entry2]⟩

/-- Framework whose normalize plan fails at its second entry. -/
def fwFail : Framework :=
  ⟨[(TestScorePlugin1 false, 2), (TestScorePlugin2, 3)], [entry2, entry1Fail, entry2]⟩

/-- Framework with an empty NormalizeScore plan. -/
def fwEmptyNorm : Framework := ⟨[(TestScorePlugin1 false, 2)], []⟩

/-- Score matrix with entries for plugins 1 and 2. -/
def mAB : PluginToNodeScoreMap := [(scorePlugin1, [2, 3]), (scorePlugin2, [2, 4])]

/-- Score matrix with an entry for plugin 1 only. -/
def mA : PluginToNodeScoreMap := [(scorePlugin1, [2, 3])]

/-- A recorder whose stop signal has been delivered. -/
def recorderStopping : metricsRecorder :=
  { bufferCh := [], bufferSize := 5, stopCh := true, isStoppedCh := false, observed := [] }

/-- A running recorder with no stop signal. -/
def recorderRunning : metricsRecorder :=
  { bufferCh := [], bufferSize := 5, stopCh := false, isStoppedCh := false, observed := [] }

/-- The nil Status is a success. -/
theorem statusIsSuccess_none : statusIsSuccess none = true := rfl

/-- A MissingScoreEntry Status is not a success. -/
theorem statusIsSuccess_missing (name : String) :
    statusIsSuccess (NewStatus Code.MissingScoreEntry name) = false := rfl

/-- A Status whose code is MissingScoreEntry is not a success. -/
theorem statusIsSuccess_of_code_missing (st : Status)
    (h : statusCode st = Code.MissingScoreEntry) : statusIsSuccess st = false := by
  cases st with
  | none => simp [statusCode] at h
  | some s =>
    simp only [statusCode] at h
    simp [statusIsSuccess, h]

/-- Looking a key up after an update: the updated key keeps its presence and
carries the new value; every other key is untouched. -/
theorem lookupScore_updateScore (m : PluginToNodeScoreMap) (n : String)
    (v : NodeScoreList) (k : String) :
    lookupScore (updateScore m n v) k =
      if n = k then (lookupScore m k).map (fun _ => v) else lookupScore m k := by
  induction m with
  | nil =>
    simp only [updateScore, lookupScore]
    split <;> rfl
  | cons p rest ih =>
    obtain ⟨pk, pv⟩ := p
    by_cases h1 : pk = n
    · subst h1
      by_cases h2 : pk = k
      · subst h2
        simp [updateScore, lookupScore]
      · simp [updateScore, lookupScore, h2]
    · by_cases h2 : pk = k
      · subst h2
        have hnk : ¬n = pk := fun h => h1 h.symm
        simp [updateScore, lookupScore, h1, hnk]
      · simp [updateScore, lookupScore, h1, h2, ih]

/-- updateScore never adds or removes keys, nor reorders them. -/
theorem updateScore_keys (m : PluginToNodeScoreMap) (n : String) (v : NodeScoreList) :
    (updateScore m n v).map Prod.fst = m.map Prod.fst := by
  induction m with
  | nil => rfl
  | cons p rest ih =>
    obtain ⟨pk, pv⟩ := p
    by_cases h : pk = n <;> simp [updateScore, h, ih]

/-- The NormalizeScore iteration only ever rewrites values in place: the key
list of the score matrix is unchanged. -/
theorem runNormalizeGo_keys (plan : List NormalizePlanEntry) :
    ∀ m : PluginToNodeScoreMap,
      ((runNormalizeGo plan m).2).map Prod.fst = m.map Prod.fst := by
  induction plan with
  | nil => intro m; rfl
  | cons e rest ih =>
    intro m
    cases h : lookupScore m e.name with
    | none => simp [runNormalizeGo, h]
    | some scores =>
      simp only [runNormalizeGo, h]
      split
      · rw [ih, updateScore_keys]
      · simp [updateScore_keys]

/-- The weighting iteration only ever rewrites values in place: the key list
of the score matrix is unchanged. -/
theorem applyWeightsGo_keys (plan : List (Plugin × Int)) :
    ∀ m : PluginToNodeScoreMap,
      ((applyWeightsGo plan m).2).map Prod.fst = m.map Prod.fst := by
  induction plan with
  | nil => intro m; rfl
  | cons pw rest ih =>
    intro m
    cases h : lookupScore m pw.1.name with
    | none => simp [applyWeightsGo, h]
    | some scores => simp [applyWeightsGo, h, ih, updateScore_keys]

/-- The Score-phase build succeeds exactly when no enabled entry fails the
per-entry condition of the full construction algorithm. -/
theorem buildScorePlan_ok_iff (r : Registry) (args : List PluginConfig)
    (l : List PluginEntry) :
    exceptIsOk (buildScorePlan r args l) = true ↔
      ∀ e ∈ l, scoreEntryFails r args e = false := by
  induction l with
  | nil => simp [buildScorePlan, exceptIsOk]
  | cons e rest ih =>
    simp only [List.mem_cons, forall_eq_or_imp]
    by_cases hfail : scoreEntryFails r args e = true
    · have hval : exceptIsOk (buildScorePlan r args (e :: rest)) = false := by
        revert hfail
        simp only [scoreEntryFails, buildScorePlan]
        cases h1 : lookupRegistry r e.name with
        | none => intro _; rfl
        | some factory =>
          cases h2 : factory (lookupArgs args e.name) with
          | error msg => intro _; simp [h2, exceptIsOk]
          | ok p =>
            cases h3 : p.score with
            | none => intro _; simp [h2, h3, exceptIsOk]
            | some sc => intro hf; simp [h2, h3] at hf
      rw [hval]
      simp [hfail]
    · have hok : scoreEntryFails r args e = false := by
        cases h : scoreEntryFails r args e
        · rfl
        · exact absurd h hfail
      have hval : exceptIsOk (buildScorePlan r args (e :: rest))
          = exceptIsOk (buildScorePlan r args rest) := by
        revert hok
        simp only [scoreEntryFails, buildScorePlan]
        cases h1 : lookupRegistry r e.name with
        | none => intro hf; simp at hf
        | some factory =>
          cases h2 : factory (lookupArgs args e.name) with
          | error msg => intro hf; simp [h2] at hf
          | ok p =>
            cases h3 : p.score with
            | none => intro hf; simp [h2, h3] at hf
            | some sc =>
              intro _
              cases h4 : buildScorePlan r args rest <;> simp [h2, h3, h4, exceptIsOk]
      rw [hval, ih]
      simp [hok]

/-- The NormalizeScore-phase build succeeds exactly when no enabled entry
fails the per-entry condition of the full construction algorithm, including
the cross-phase consistency rule. -/
theorem buildNormalizePlan_ok_iff (r : Registry) (args : List PluginConfig)
    (scoreNames : List String) (l : List PluginEntry) :
    exceptIsOk (buildNormalizePlan r args scoreNames l) = true ↔
      ∀ e ∈ l, normalizeEntryFails r args scoreNames e = false := by
  induction l with
  | nil => simp [buildNormalizePlan, exceptIsOk]
  | cons e rest ih =>
    simp only [List.mem_cons, forall_eq_or_imp]
    by_cases hfail : normalizeEntryFails r args scoreNames e = true
    · have hval : exceptIsOk (buildNormalizePlan r args scoreNames (e :: rest)) = false := by
        revert hfail
        simp only [normalizeEntryFails, buildNormalizePlan]
        cases h1 : lookupRegistry r e.name with
        | none => intro _; rfl
        | some factory =>
          cases h2 : factory (lookupArgs args e.name) with
          | error msg => intro _; simp [h2, exceptIsOk]
          | ok p =>
            cases h3 : p.normalizeScore with
            | none => intro _; simp [h2, h3, exceptIsOk]
            | some nf =>
              intro hf
              simp [h2, h3] at hf
              simp [h2, h3, hf, exceptIsOk]
      rw [hval]
      simp [hfail]
    · have hok : normalizeEntryFails r args scoreNames e = false := by
        cases h : normalizeEntryFails r args scoreNames e
        · rfl
        · exact absurd h hfail
      have hval : exceptIsOk (buildNormalizePlan r args scoreNames (e :: rest))
          = exceptIsOk (buildNormalizePlan r args scoreNames rest) := by
        revert hok
        simp only [normalizeEntryFails, buildNormalizePlan]
        cases h1 : lookupRegistry r e.name with
        | none => intro hf; simp at hf
        | some factory =>
          cases h2 : factory (lookupArgs args e.name) with
          | error msg => intro hf; simp [h2] at hf
          | ok p =>
            cases h3 : p.normalizeScore with
            | none => intro hf; simp [h2, h3] at hf
            | some nf =>
              intro hf
              simp [h2, h3] at hf
              cases h4 : buildNormalizePlan r args scoreNames rest <;>
                simp [h2, h3, h4, hf, exceptIsOk]
      rw [hval, ih]
      simp [hok]

/-- C1 (amended): NewFramework succeeds if and only if no enabled entry
fails construction, where an entry fails exactly when its name is absent
from the registry, its factory returns an error, the constructed plugin
lacks the capability required by the phase it is enabled under, or it is
enabled under NormalizeScore without appearing by name among the
Score-enabled entries.  A nil or empty PluginSet enables nothing, so it
trivially succeeds, and by the Except result type a failed construction
returns no Framework. -/
theorem NewFramework_ok_iff (r : Registry) (cfg : Plugins) (args : List PluginConfig) :
    exceptIsOk (NewFramework r cfg args) = true ↔
      ((∀ e ∈ enabledOf cfg.score, scoreEntryFails r args e = false) ∧
       (∀ e ∈ enabledOf cfg.normalizeScore,
          normalizeEntryFails r args ((enabledOf cfg.score).map PluginEntry.name) e = false)) := by
  have hs := buildScorePlan_ok_iff r args (enabledOf cfg.score)
  have hn := buildNormalizePlan_ok_iff r args ((enabledOf cfg.score).map PluginEntry.name)
    (enabledOf cfg.normalizeScore)
  unfold NewFramework
  cases h1 : buildScorePlan r args (enabledOf cfg.score) with
  | error err =>
    rw [h1] at hs
    refine iff_of_false (by simp [exceptIsOk]) ?_
    intro h
    have hbad := hs.mpr h.1
    simp [exceptIsOk] at hbad
  | ok sp =>
    rw [h1] at hs
    cases h2 : buildNormalizePlan r args ((enabledOf cfg.score).map PluginEntry.name)
        (enabledOf cfg.normalizeScore) with
    | error err =>
      rw [h2] at hn
      refine iff_of_false (by simp [exceptIsOk]) ?_
      intro h
      have hbad := hn.mpr h.2
      simp [exceptIsOk] at hbad
    | ok np =>
      rw [h2] at hn
      exact iff_of_true rfl ⟨hs.mp rfl, hn.mp rfl⟩

/-- C1 counterexample: with a single Score-enabled entry whose factory
errors, construction fails although every failure condition the claim lists
is false at every enabled entry: the name resolves in the registry, no
constructed plugin lacks a required capability (the factory constructs
none), and there are no NormalizeScore entries at all. -/
theorem NewFramework_fails_without_stated_cause :
    exceptIsOk (NewFramework failingFactoryRegistry failingFactoryConfig []) = false
    ∧ (∀ e ∈ enabledOf failingFactoryConfig.score,
         scoreEntryFailsStated failingFactoryRegistry [] e = false)
    ∧ (∀ e ∈ enabledOf failingFactoryConfig.normalizeScore,
         normalizeEntryFailsStated failingFactoryRegistry []
           ((enabledOf failingFactoryConfig.score).map PluginEntry.name) e = false) := by
  refine ⟨rfl, ?_, ?_⟩ <;> decide

/-- C10: neither RunNormalizeScorePlugins nor ApplyScoreWeights adds or
removes entries of the score map, whether the call succeeds or fails: the
list of plugin-name keys after the call equals the list before it, since
plugins receive only the NodeScoreList for their own key and the framework
writes back through updateScore, which never changes the key list. -/
theorem score_map_keys_preserved (f : Framework) (m : PluginToNodeScoreMap) :
    ((RunNormalizeScorePlugins f m).2).map Prod.fst = m.map Prod.fst ∧
    ((ApplyScoreWeights f m).2).map Prod.fst = m.map Prod.fst :=
  ⟨runNormalizeGo_keys f.normalizeScorePlugins m, applyWeightsGo_keys f.scorePlugins m⟩

/-- Running a concatenated NormalizeScore plan runs the first part and, only
if it succeeded, continues with the second part from the mutated matrix. -/
theorem runNormalizeGo_append (p q : List NormalizePlanEntry) :
    ∀ m : PluginToNodeScoreMap,
      runNormalizeGo (p ++ q) m =
        (if statusIsSuccess (runNormalizeGo p m).1
         then runNormalizeGo q (runNormalizeGo p m).2
         else runNormalizeGo p m) := by
  induction p with
  | nil => intro m; simp [runNormalizeGo, statusIsSuccess]
  | cons e rest ih =>
    intro m
    cases h : lookupScore m e.name with
    | none =>
      simp only [List.cons_append, runNormalizeGo, h]
      rw [if_neg]
      simp [statusIsSuccess, NewStatus]
    | some scores =>
      simp only [List.cons_append, runNormalizeGo, h]
      by_cases hsucc : statusIsSuccess (e.normalize scores).1 = true
      · simp [hsucc, ih]
      · simp [hsucc]

/-- C4: if every plugin before some entry of the NormalizeScore plan ran
successfully, and that entry's NormalizeScore call returns a failing Status,
then RunNormalizeScorePlugins returns that Status verbatim, no plugin of the
rest of the plan is invoked (the result does not depend on the plan's tail),
and the in-place mutations already applied — including the failing plugin's
own writes — are left standing with no rollback. -/
theorem normalize_fail_fast (f : Framework) (pre : List NormalizePlanEntry)
    (e : NormalizePlanEntry) (post : List NormalizePlanEntry)
    (m m1 : PluginToNodeScoreMap) (l : NodeScoreList)
    (hplan : f.normalizeScorePlugins = pre ++ e :: post)
    (hpre : runNormalizeGo pre m = (none, m1))
    (hlook : lookupScore m1 e.name = some l)
    (hfail : statusIsSuccess (e.normalize l).1 = false) :
    RunNormalizeScorePlugins f m
      = ((e.normalize l).1, updateScore m1 e.name (e.normalize l).2) := by
  unfold RunNormalizeScorePlugins
  rw [hplan, runNormalizeGo_append, hpre]
  simp only [statusIsSuccess, if_true]
  simp only [runNormalizeGo, hlook]
  rw [if_neg]
  simp [hfail]

/-- The NormalizeScore iteration never touches the value stored under a key
that is no enabled plugin's name. -/
theorem runNormalizeGo_frame (plan : List NormalizePlanEntry) :
    ∀ (m : PluginToNodeScoreMap) (k : String), (∀ e ∈ plan, e.name ≠ k) →
      lookupScore (runNormalizeGo plan m).2 k = lookupScore m k := by
  induction plan with
  | nil => intro m k _; rfl
  | cons e rest ih =>
    intro m k hk
    have hek : e.name ≠ k := hk e (List.mem_cons_self e rest)
    cases h : lookupScore m e.name with
    | none => simp [runNormalizeGo, h]
    | some scores =>
      simp only [runNormalizeGo, h]
      split
      · rw [ih _ k (fun x hx => hk x (List.mem_cons_of_mem e hx)), lookupScore_updateScore]
        simp [hek]
      · simp [lookupScore_updateScore, hek]

/-- C5: with an empty (nil or empty-set) NormalizeScore plan,
RunNormalizeScorePlugins returns success and the score map value-for-value
identical to its input; and in any run, the entry of a plugin that is not
enabled for NormalizeScore is numerically unchanged. -/
theorem normalize_frame (f : Framework) (m : PluginToNodeScoreMap) (k : String)
    (hk : ∀ e ∈ f.normalizeScorePlugins, e.name ≠ k) :
    (f.normalizeScorePlugins = [] → RunNormalizeScorePlugins f m = (none, m)) ∧
    lookupScore (RunNormalizeScorePlugins f m).2 k = lookupScore m k := by
  constructor
  · intro h
    unfold RunNormalizeScorePlugins
    rw [h]
    rfl
  · exact runNormalizeGo_frame f.normalizeScorePlugins m k hk

/-- A missing score-map entry for any plugin of the NormalizeScore plan makes
the iteration fail with MissingScoreEntry, provided the enabled plugins
themselves succeed. -/
theorem runNormalizeGo_missing (plan : List NormalizePlanEntry) :
    ∀ m : PluginToNodeScoreMap,
      (∀ e ∈ plan, ∀ l, statusIsSuccess (e.normalize l).1 = true) →
      (∃ e ∈ plan, lookupScore m e.name = none) →
      statusCode (runNormalizeGo plan m).1 = Code.MissingScoreEntry := by
  induction plan with
  | nil =>
    intro m _ h
    simp at h
  | cons e rest ih =>
    intro m hall hex
    cases h : lookupScore m e.name with
    | none => simp [runNormalizeGo, h, NewStatus, statusCode]
    | some scores =>
      have hsucc := hall e (List.mem_cons_self e rest) scores
      simp only [runNormalizeGo, h, hsucc, if_true]
      apply ih
      · intro x hx l
        exact hall x (List.mem_cons_of_mem e hx) l
      · obtain ⟨x, hx, hlx⟩ := hex
        rcases List.mem_cons.mp hx with hhd | hx2
        · rw [hhd] at hlx
          rw [h] at hlx
          cases hlx
        · refine ⟨x, hx2, ?_⟩
          rw [lookupScore_updateScore]
          split <;> simp [hlx]

/-- A missing score-map entry for any plugin of the Score plan makes the
weighting iteration fail with MissingScoreEntry. -/
theorem applyWeightsGo_missing (plan : List (Plugin × Int)) :
    ∀ m : PluginToNodeScoreMap,
      (∃ pw ∈ plan, lookupScore m pw.1.name = none) →
      statusCode (applyWeightsGo plan m).1 = Code.MissingScoreEntry := by
  induction plan with
  | nil =>
    intro m h
    simp at h
  | cons pw rest ih =>
    intro m hex
    cases h : lookupScore m pw.1.name with
    | none => simp [applyWeightsGo, h, NewStatus, statusCode]
    | some scores =>
      simp only [applyWeightsGo, h]
      apply ih
      obtain ⟨x, hx, hlx⟩ := hex
      rcases List.mem_cons.mp hx with hhd | hx2
      · rw [hhd] at hlx
        rw [h] at hlx
        cases hlx
      · refine ⟨x, hx2, ?_⟩
        rw [lookupScore_updateScore]
        split <;> simp [hlx]

/-- C3: when any plugin configured for the phase being run has no entry
keyed by its name in the supplied score map, RunNormalizeScorePlugins (over
the NormalizeScore plan, with plugins that themselves succeed) and
ApplyScoreWeights (over the Score plan) return a failing MissingScoreEntry
Status, even when every other configured plugin's entry is present and
valid. -/
theorem missing_entry_fails (f : Framework) (m1 m2 : PluginToNodeScoreMap)
    (hall : ∀ e ∈ f.normalizeScorePlugins, ∀ l, statusIsSuccess (e.normalize l).1 = true)
    (h1 : ∃ e ∈ f.normalizeScorePlugins, lookupScore m1 e.name = none)
    (h2 : ∃ pw ∈ f.scorePlugins, lookupScore m2 pw.1.name = none) :
    (statusCode (RunNormalizeScorePlugins f m1).1 = Code.MissingScoreEntry ∧
     statusIsSuccess (RunNormalizeScorePlugins f m1).1 = false) ∧
    (statusCode (ApplyScoreWeights f m2).1 = Code.MissingScoreEntry ∧
     statusIsSuccess (ApplyScoreWeights f m2).1 = false) := by
  have ha := runNormalizeGo_missing f.normalizeScorePlugins m1 hall h1
  have hb := applyWeightsGo_missing f.scorePlugins m2 h2
  exact ⟨⟨ha, statusIsSuccess_of_code_missing _ ha⟩,
         ⟨hb, statusIsSuccess_of_code_missing _ hb⟩⟩

/-- The weighting iteration over a plan with distinct plugin names whose
entries are all present: it succeeds, multiplies each plugin's list
elementwise by that plugin's own weight, and leaves every other key
unchanged. -/
theorem applyWeightsGo_spec (plan : List (Plugin × Int)) :
    ∀ m : PluginToNodeScoreMap,
      (plan.map (fun pw => pw.1.name)).Nodup →
      (∀ pw ∈ plan, (lookupScore m pw.1.name).isSome = true) →
      statusIsSuccess (applyWeightsGo plan m).1 = true ∧
      (∀ pw ∈ plan, ∀ l, lookupScore m pw.1.name = some l →
         lookupScore (applyWeightsGo plan m).2 pw.1.name
           = some (l.map (fun x => x * pw.2))) ∧
      (∀ k, (∀ pw ∈ plan, pw.1.name ≠ k) →
         lookupScore (applyWeightsGo plan m).2 k = lookupScore m k) := by
  induction plan with
  | nil =>
    intro m _ _
    exact ⟨rfl, fun pw hpw => absurd hpw (List.not_mem_nil pw), fun k _ => rfl⟩
  | cons pw rest ih =>
    intro m hnd hpres
    obtain ⟨l0, hl0⟩ := Option.isSome_iff_exists.mp
      (hpres pw (List.mem_cons_self pw rest))
    have hstep : applyWeightsGo (pw :: rest) m
        = applyWeightsGo rest (updateScore m pw.1.name (l0.map (fun x => x * pw.2))) := by
      simp [applyWeightsGo, hl0]
    have hndc := hnd
    rw [List.map_cons] at hndc
    obtain ⟨hnotin, hnd2⟩ := List.nodup_cons.mp hndc
    have hne : ∀ q ∈ rest, q.1.name ≠ pw.1.name := by
      intro q hq hEq
      apply hnotin
      rw [← hEq]
      exact List.mem_map_of_mem (fun q => q.1.name) hq
    have hpres2 : ∀ q ∈ rest,
        (lookupScore (updateScore m pw.1.name (l0.map (fun x => x * pw.2))) q.1.name).isSome
          = true := by
      intro q hq
      rw [lookupScore_updateScore]
      rw [if_neg (fun h => hne q hq h.symm)]
      exact hpres q (List.mem_cons_of_mem pw hq)
    obtain ⟨ihs, ihm, ihf⟩ := ih _ hnd2 hpres2
    rw [hstep]
    refine ⟨ihs, ?_, ?_⟩
    · intro q hq l hl
      rcases List.mem_cons.mp hq with hhd | hq2
      · subst hhd
        rw [hl0] at hl
        injection hl with hll
        subst hll
        rw [ihf q.1.name hne, lookupScore_updateScore, if_pos rfl, hl0]
        rfl
      · have hlq : lookupScore (updateScore m pw.1.name (l0.map (fun x => x * pw.2))) q.1.name
            = some l := by
          rw [lookupScore_updateScore, if_neg (fun h => hne q hq2 h.symm)]
          exact hl
        exact ihm q hq2 l hlq
    · intro k hk
      have hkh : pw.1.name ≠ k := hk pw (List.mem_cons_self pw rest)
      rw [ihf k (fun q hq => hk q (List.mem_cons_of_mem pw hq)),
        lookupScore_updateScore, if_neg hkh]

/-- C2: for a Framework whose Score plan has distinct plugin names and a
score map containing an entry for each Score-configured plugin,
ApplyScoreWeights multiplies every element of each such plugin's
NodeScoreList by that plugin's configured integer weight — plain integer
multiplication with no clamping, each plugin scaled independently by its own
weight and every other entry untouched — writes the result back in place,
and returns a success Status. -/
theorem ApplyScoreWeights_scales (f : Framework) (m : PluginToNodeScoreMap)
    (hnd : (f.scorePlugins.map (fun pw => pw.1.name)).Nodup)
    (hpres : ∀ pw ∈ f.scorePlugins, (lookupScore m pw.1.name).isSome = true) :
    statusIsSuccess (ApplyScoreWeights f m).1 = true ∧
    (∀ pw ∈ f.scorePlugins, ∀ l, lookupScore m pw.1.name = some l →
       lookupScore (ApplyScoreWeights f m).2 pw.1.name
         = some (l.map (fun x => x * pw.2))) ∧
    (∀ k, (∀ pw ∈ f.scorePlugins, pw.1.name ≠ k) →
       lookupScore (ApplyScoreWeights f m).2 k = lookupScore m k) :=
  applyWeightsGo_spec f.scorePlugins m hnd hpres

/-- One drain pass of up to n receives moves exactly the first
min(n, pending) metrics from the buffer to the histograms, in order, and
changes nothing else of the recorder. -/
theorem recordMetricsAux_eq (n : Nat) :
    ∀ r : metricsRecorder,
      recordMetricsAux n r =
        { r with bufferCh := r.bufferCh.drop n
               , observed := r.observed ++ r.bufferCh.take n } := by
  induction n with
  | zero =>
    intro r
    simp [recordMetricsAux]
  | succ k ih =>
    intro r
    obtain ⟨bc, bs, st, isp, obs⟩ := r
    cases bc with
    | nil => simp [recordMetricsAux]
    | cons m rest => simp [recordMetricsAux, ih]

/-- C8: each drain cycle removes at most bufferSize observations from the
buffer, applies each removed observation — with its recorded histogram
identity, label values and value — to the observed log in FIFO order, and
when the buffer holds fewer pending observations than the bound (in
particular when it is empty) it takes only what is available and returns
without blocking. -/
theorem recordMetrics_drains (r : metricsRecorder) :
    recordMetrics r =
      { r with bufferCh := r.bufferCh.drop r.bufferSize
             , observed := r.observed ++ r.bufferCh.take r.bufferSize } ∧
    r.bufferCh.length - (recordMetrics r).bufferCh.length ≤ r.bufferSize := by
  have h := recordMetricsAux_eq r.bufferSize r
  refine ⟨h, ?_⟩
  unfold recordMetrics
  rw [h]
  simp
  omega

/-- C7: neither observe call can block — each is a total function of the
recorder state whose only effect is on the buffer: when the buffer has free
capacity the built metric is enqueued at the tail, and when it is full
(bufferSize pending observations) the state is returned unchanged, the
observation silently dropped; in both cases nothing is delivered to a
histogram and no error is surfaced (the calls return nothing). -/
theorem observe_async_nonblocking (r : metricsRecorder)
    (extensionPoint pluginName : String) (status : Status) (value : Float) :
    (observeExtensionPointDurationAsync extensionPoint status value r).bufferCh
      = (if r.bufferCh.length < r.bufferSize
         then r.bufferCh ++ [⟨HistogramVec.FrameworkExtensionPointDuration,
                              [extensionPoint, codeString (statusCode status)], value⟩]
         else r.bufferCh) ∧
    (observePluginDurationAsync extensionPoint pluginName status value r).bufferCh
      = (if r.bufferCh.length < r.bufferSize
         then r.bufferCh ++ [⟨HistogramVec.PluginExecutionDuration,
                              [pluginName, extensionPoint, codeString (statusCode status)], value⟩]
         else r.bufferCh) ∧
    (observeExtensionPointDurationAsync extensionPoint status value r).observed = r.observed ∧
    (observePluginDurationAsync extensionPoint pluginName status value r).observed = r.observed := by
  unfold observeExtensionPointDurationAsync observePluginDurationAsync bufferEnqueue
  refine ⟨?_, ?_, ?_, ?_⟩ <;> split <;> rfl

/-- C6: the recorder keeps exactly one buffer (the metricsRecorder state has
the single bufferCh queue and no secondary batch buffer or lock): a
producer's enqueue only ever appends to that queue or drops the metric, and
a drain cycle consumes directly from the same queue, conserving the
combined sequence of delivered and pending metrics — so no pointer-swap
rotation between channel references exists or is needed. -/
theorem single_buffer_direct_drain (r : metricsRecorder) (m : frameworkMetric) :
    (bufferEnqueue m r).observed = r.observed ∧
    ((bufferEnqueue m r).bufferCh = r.bufferCh ++ [m] ∨
     (bufferEnqueue m r).bufferCh = r.bufferCh) ∧
    (recordMetrics r).observed ++ (recordMetrics r).bufferCh
      = r.observed ++ r.bufferCh := by
  refine ⟨?_, ?_, ?_⟩
  · unfold bufferEnqueue
    split <;> rfl
  · unfold bufferEnqueue
    split
    · exact Or.inl rfl
    · exact Or.inr rfl
  · unfold recordMetrics
    rw [recordMetricsAux_eq]
    simp

/-- C9: once the stop signal is delivered, the next loop iteration closes
the stopped signal and exits without draining again (buffer and delivered
log unchanged); the loop is then a fixpoint, performing no further
draining; and the stopped signal is asserted exactly by that exit — an
iteration without a stop signal never sets it. -/
theorem stop_shutdown (r s : metricsRecorder) (n : Nat)
    (h : r.stopCh = true) (h2 : s.stopCh = false) :
    (runStep r).isStoppedCh = true ∧
    (runStep r).observed = r.observed ∧
    (runStep r).bufferCh = r.bufferCh ∧
    runLoop n (runStep r) = runStep r ∧
    (runStep s).isStoppedCh = s.isStoppedCh := by
  have hr : runStep r = { r with isStoppedCh := true } := by
    unfold runStep
    rw [if_pos h]
  have hs : runStep s = recordMetrics s := by
    unfold runStep
    rw [if_neg]
    simp [h2]
  refine ⟨by rw [hr], by rw [hr], by rw [hr], ?_, ?_⟩
  · rw [hr]
    cases n with
    | zero => rfl
    | succ k => simp [runLoop]
  · rw [hs]
    unfold recordMetrics
    rw [recordMetricsAux_eq]

/-- The construction table of the two construction test functions: a name
absent from the registry, a NormalizeScore-enabled plugin without the
capability, and a NormalizeScore-enabled plugin that is not Score-enabled
all fail; nil or empty PluginSets and the two valid configurations
succeed. -/
theorem newFramework_test_table :
    exceptIsOk (NewFramework registry
      { score := none, normalizeScore := some ⟨[⟨"notExist", 0⟩]⟩ } []) = false ∧
    exceptIsOk (NewFramework registry
      { score := some ⟨[⟨scorePlugin3, 0⟩]⟩
      , normalizeScore := some ⟨[⟨scorePlugin3, 0⟩]⟩ } []) = false ∧
    exceptIsOk (NewFramework registry
      { score := none, normalizeScore := some ⟨[⟨scorePlugin1, 0⟩]⟩ } []) = false ∧
    exceptIsOk (NewFramework registry
      { score := none, normalizeScore := none } []) = true ∧
    exceptIsOk (NewFramework registry
      { score := none, normalizeScore := some ⟨[]⟩ } []) = true ∧
    exceptIsOk (NewFramework registry plugin1 []) = true ∧
    exceptIsOk (NewFramework registry plugin1And2 []) = true :=
  ⟨rfl, rfl, rfl, rfl, rfl, rfl, rfl⟩

/-- Running the framework built from plugin1And2 over the two-plugin matrix
reproduces the test expectation: plugin 1's scores decrease by one and
plugin 2's are forced to five. -/
theorem runNormalize_test_table :
    (match NewFramework registry plugin1And2 [] with
     | Except.ok f => RunNormalizeScorePlugins f mAB
     | Except.error _ => (none, []))
      = (none, [(scorePlugin1, [1, 2]), (scorePlugin2, [5, 5])]) := rfl

/-- Weighting the framework built from plugin1And2 over the two-plugin
matrix reproduces the test expectation: plugin 1 scales by 2, plugin 2 by
3. -/
theorem applyScoreWeights_test_table :
    (match NewFramework registry plugin1And2 [] with
     | Except.ok f => ApplyScoreWeights f mAB
     | Except.error _ => (none, []))
      = (none, [(scorePlugin1, [4, 6]), (scorePlugin2, [6, 12])]) := rfl

/-- C2 witness: on the two-plugin framework with weights 2 and 3 and input
lists [2, 3] and [2, 4], weighting succeeds and yields [4, 6] and
[6, 12]. -/
theorem ApplyScoreWeights_scales_witness :
    statusIsSuccess (ApplyScoreWeights fw12 mAB).1 = true ∧
    lookupScore (ApplyScoreWeights fw12 mAB).2 scorePlugin1 = some [4, 6] ∧
    lookupScore (ApplyScoreWeights fw12 mAB).2 scorePlugin2 = some [6, 12] := by
  have h := ApplyScoreWeights_scales fw12 mAB (by decide) (by decide)
  exact ⟨h.1,
    h.2.1 (TestScorePlugin1 false, 2) (List.mem_cons_self _ _) [2, 3] rfl,
    h.2.1 (TestScorePlugin2, 3)
      (List.mem_cons_of_mem _ (List.mem_cons_self _ _)) [2, 4] rfl⟩

/-- C3 witness: on the two-plugin framework with a matrix holding only
plugin 1's entry, both phases fail with MissingScoreEntry. -/
theorem missing_entry_fails_witness :
    lookupScore mA scorePlugin2 = none ∧
    statusCode (RunNormalizeScorePlugins fw12 mA).1 = Code.MissingScoreEntry ∧
    statusCode (ApplyScoreWeights fw12 mA).1 = Code.MissingScoreEntry := by
  have hall : ∀ e ∈ fw12.normalizeScorePlugins, ∀ l,
      statusIsSuccess (e.normalize l).1 = true := by
    intro e he l
    rcases List.mem_cons.mp he with hhd | he2
    · subst hhd; rfl
    · rcases List.mem_cons.mp he2 with hhd | he3
      · subst hhd; rfl
      · exact absurd he3 (List.not_mem_nil e)
  have h := missing_entry_fails fw12 mA mA hall
    ⟨entry2, List.mem_cons_of_mem entry1 (List.mem_cons_self entry2 []), rfl⟩
    ⟨(TestScorePlugin2, 3), List.mem_cons_of_mem (TestScorePlugin1 false, 2)
      (List.mem_cons_self (TestScorePlugin2, 3) []), rfl⟩
  exact ⟨rfl, h.1.1, h.2.1⟩

/-- C4 witness: in the plan [entry2, entry1Fail, entry2], entry2 first
mutates plugin 2's scores to fives, then entry1Fail fails; the failing
Status is returned verbatim, the third entry never runs, and entry2's
mutation stands. -/
theorem normalize_fail_fast_witness :
    RunNormalizeScorePlugins fwFail mAB
      = (NewStatus Code.Error "injecting failure.",
         [(scorePlugin1, [2, 3]), (scorePlugin2, [5, 5])]) :=
  normalize_fail_fast fwFail [entry2] entry1Fail [entry2] mAB
    [(scorePlugin1, [2, 3]), (scorePlugin2, [5, 5])] [2, 3] rfl rfl rfl rfl

/-- C5 witness: with an empty NormalizeScore plan the run returns success
with the matrix value-for-value identical, and plugin 2's never-normalized
entry reads back unchanged. -/
theorem normalize_frame_witness :
    fwEmptyNorm.normalizeScorePlugins = [] ∧
    RunNormalizeScorePlugins fwEmptyNorm mAB = (none, mAB) ∧
    lookupScore (RunNormalizeScorePlugins fwEmptyNorm mAB).2 scorePlugin2
      = lookupScore mAB scorePlugin2 := by
  have hk : ∀ e ∈ fwEmptyNorm.normalizeScorePlugins, e.name ≠ scorePlugin2 := by
    intro e he
    exact absurd he (List.not_mem_nil e)
  have h := normalize_frame fwEmptyNorm mAB scorePlugin2 hk
  exact ⟨rfl, h.1 rfl, h.2⟩

/-- C9 witness: a stopped-signal recorder's next iteration asserts the
stopped signal and the loop is a fixpoint from then on, while a running
recorder's iteration leaves the stopped signal unset. -/
theorem stop_shutdown_witness :
    recorderStopping.stopCh = true ∧
    recorderRunning.stopCh = false ∧
    (runStep recorderStopping).isStoppedCh = true ∧
    runLoop 3 (runStep recorderStopping) = runStep recorderStopping ∧
    (runStep recorderRunning).isStoppedCh = recorderRunning.isStoppedCh := by
  have h := stop_shutdown recorderStopping recorderRunning 3 rfl rfl
  exact ⟨rfl, rfl, h.1, h.2.2.2.1, h.2.2.2.2⟩

end KubeScheduler
